import Mathlib

/-!
Verification development for the treeblood goldmark math extension
(`treeblood.go`): a shallow embedding of the delimiter-scanning math
parsers (inline scanner, block scanner, renderer dispatch) together with
theorems about the claims of the specification.

Conventions of the embedding:
- Bytes are modelled as `Char` (all delimiters are ASCII, content bytes
  are opaque payload).
- goldmark's `text.Reader` is modelled by `TB.Reader`: the document is a
  fixed list of lines (each line carries its trailing newline character
  when the source has one), and the mutable cursor is a pair of a line
  index and a byte offset within that line.  `PeekLine`, `AdvanceLine`,
  `Advance`, `Position` and `SetPosition` are the operations the Go code
  uses; they are embedded one-for-one.
- `bytes.Index`, `bytes.Contains`, `bytes.Count` and `bytes.HasPrefix`
  are embedded as `indexOf`, `containsSub`, `countS`, `List.isPrefixOf`.
- Stateful Go methods become functions `Reader → result × Reader`.
-/

namespace TB

/-- A line of the document, including its trailing newline when present. -/
abbrev Line := List Char

/-- Model of goldmark's `text.Reader` as used by the two scanners:
a fixed list of document lines plus a cursor (line index, byte offset). -/
structure Reader where
  lines : List Line
  li : Nat
  co : Nat
deriving Repr, DecidableEq

/-- `PeekLine`: the rest of the current line (from the cursor to the end of
the line, trailing newline included), or `none` past the last line. -/
def Reader.peekLine (r : Reader) : Option Line :=
  match r.lines.get? r.li with
  | some l => some (l.drop r.co)
  | none => none

/-- `AdvanceLine`: move the cursor to the start of the next line. -/
def Reader.advanceLine (r : Reader) : Reader :=
  { r with li := r.li + 1, co := 0 }

/-- `Advance(n)`: move the cursor `n` bytes forward within the current line. -/
def Reader.advance (r : Reader) (n : Nat) : Reader :=
  { r with co := r.co + n }

/-- `Position()`: the cursor as an opaque restorable value. -/
def Reader.position (r : Reader) : Nat × Nat :=
  (r.li, r.co)

/-- `SetPosition`: restore a previously saved cursor. -/
def Reader.setPosition (r : Reader) (p : Nat × Nat) : Reader :=
  { r with li := p.1, co := p.2 }

/-- `bytes.Index(l, pat)`: index of the first occurrence of `pat` in `l`,
`none` when absent (Go returns `-1`). -/
def indexOf (pat : List Char) : List Char → Option Nat
  | [] => if List.isPrefixOf pat [] then some 0 else none
  | c :: t =>
    if List.isPrefixOf pat (c :: t) then some 0
    else (indexOf pat t).map (· + 1)

/-- `bytes.Contains(l, pat)`, defined in Go as `Index(l, pat) != -1`. -/
def containsSub (pat l : List Char) : Bool :=
  (indexOf pat l).isSome

/-- Fueled worker for `bytes.Count`: counts non-overlapping occurrences,
skipping past a match.  The fuel (always instantiated with the length of
the scanned list, which is sufficient for a nonempty pattern) keeps the
recursion structural so that terms reduce by `rfl`/`decide`. -/
def countSubAux (pat : List Char) : Nat → List Char → Nat
  | 0, _ => 0
  | _, [] => 0
  | fuel + 1, c :: t =>
    if List.isPrefixOf pat (c :: t) then
      1 + countSubAux pat fuel ((c :: t).drop pat.length)
    else
      countSubAux pat fuel t

/-- `bytes.Count(l, pat)` for a nonempty `pat`: the number of
non-overlapping occurrences of `pat` in `l`. -/
def countS (pat l : List Char) : Nat :=
  countSubAux pat l.length l

/-! Delimiter catalog.  The Go constants are raw string literals
(backquoted), so `_inlineopen` is the THREE bytes backslash, backslash,
open-paren, and similarly for the other AMS delimiters. -/

def _inlineopen : List Char := ['\\', '\\', '(']

def _inlineclose : List Char := ['\\', '\\', ')']

def _displayopen : List Char := ['\\', '\\', '[']

def _displayclose : List Char := ['\\', '\\', ']']

def _dollarInline : List Char := ['$']

def _dollarDisplay : List Char := ['$', '$']

/-! Flavor bits, `1 << iota` in declaration order. -/

def flavor_inline : Nat := 1

def flavor_display : Nat := 2

def delimeter_ams : Nat := 4

def delimeter_tex : Nat := 8

/-- `mathInlineNode`: flavor and extracted TeX source. -/
structure MathInlineNode where
  flavor : Nat
  tex : List Char
deriving Repr, DecidableEq

/-- `mathBlockNode`: flavor and the appended line segments (we store the
byte values of the segments; goldmark stores offsets into the immutable
source, which is equivalent). -/
structure MathBlockNode where
  flavor : Nat
  segs : List (List Char)
deriving Repr, DecidableEq

/-- The `switch` at the top of `texInlineRegionParser.Parse`, in source
order: display-dollar, inline-dollar, AMS inline-open, AMS display-open. -/
def classifyInline (line : List Char) : Option (List Char × List Char × Nat) :=
  if List.isPrefixOf _dollarDisplay line then
    some (_dollarDisplay, _dollarDisplay, flavor_display ||| delimeter_tex)
  else if List.isPrefixOf _dollarInline line then
    some (_dollarInline, _dollarInline, flavor_inline ||| delimeter_tex)
  else if List.isPrefixOf _inlineopen line then
    some (_inlineopen, _inlineclose, flavor_inline ||| delimeter_ams)
  else if List.isPrefixOf _displayopen line then
    some (_displayopen, _displayclose, flavor_display ||| delimeter_ams)
  else
    none

/-- `texInlineRegionParser.Parse`.  Returns the produced node (if any) and
the reader after the call.  Mirrors the Go control flow: classify the
line prefix; search the closer in the rest of the line; on failure peek
exactly one line ahead (saving and restoring the position), and either
give up or advance onto that line and close there. -/
def texInlineParse (r : Reader) : Option MathInlineNode × Reader :=
  match r.peekLine with
  | none => (none, r)
  | some line =>
    match classifyInline line with
    | none => (none, r)
    | some (bg, ed, flavor) =>
      match indexOf ed (line.drop bg.length) with
      | some stop =>
        (some ⟨flavor, (line.drop bg.length).take stop⟩,
         r.advance (bg.length + stop + ed.length))
      | none =>
        let saved := r.position
        let r1 := r.advanceLine
        let nextLine := r1.peekLine
        let r2 := r1.setPosition saved
        match nextLine with
        | none => (none, r2)
        | some nl =>
          if containsSub ed nl then
            let r3 := r2.advanceLine
            match r3.peekLine with
            | none => (none, r3)
            | some line2 =>
              match indexOf ed line2 with
              | some stop2 =>
                (some ⟨flavor, line2.take stop2⟩, r3.advance (stop2 + ed.length))
              | none => (none, r3)
          else (none, r2)

/-- The `switch` at the top of `texBlockRegionParser.Open`, in source
order: AMS display-open, display-dollar, AMS inline-open, inline-dollar. -/
def classifyBlock (line : List Char) : Option (List Char × List Char × Nat) :=
  if List.isPrefixOf _displayopen line then
    some (_displayopen, _displayclose, flavor_display ||| delimeter_ams)
  else if List.isPrefixOf _dollarDisplay line then
    some (_dollarDisplay, _dollarDisplay, flavor_display ||| delimeter_tex)
  else if List.isPrefixOf _inlineopen line then
    some (_inlineopen, _inlineclose, flavor_inline ||| delimeter_ams)
  else if List.isPrefixOf _dollarInline line then
    some (_dollarInline, _dollarInline, flavor_inline ||| delimeter_tex)
  else
    none

/-- The confirmation probe of `texBlockRegionParser.Open`: save the
position, advance one line, peek it, and restore the saved position.
The Go `for` loop around this body breaks on every path of its first
iteration (EOF, count = 1, and count ≠ 1 all `break`), so the body runs
exactly once and only the line immediately after the opener is examined.
Returns the `found` flag and the reader after the probe. -/
def probeBlock (ed : List Char) (r : Reader) : Bool × Reader :=
  let saved := r.position
  let r1 := r.advanceLine
  let found :=
    match r1.peekLine with
    | none => false
    | some nl => countS ed nl == 1
  (found, r1.setPosition saved)

/-- `texBlockRegionParser.Open`.  Classify the line prefix; reject if the
closer already occurs later in the same line (inline math); run the
confirmation probe; if confirmed, consume the opener and seed the node's
segment list with the remainder of the opening line. -/
def texBlockOpen (r : Reader) : Option MathBlockNode × Reader :=
  match r.peekLine with
  | none => (none, r)
  | some line =>
    match classifyBlock line with
    | none => (none, r)
    | some (bg, ed, flavor) =>
      if containsSub ed (line.drop bg.length) then (none, r)
      else
        let pr := probeBlock ed r
        if pr.1 then
          let r2 := pr.2.advance bg.length
          let seg := match r2.peekLine with | some l => l | none => []
          (some ⟨flavor, [seg]⟩, r2)
        else (none, pr.2)

/-- The `switch` in `texBlockRegionParser.Continue` mapping the flavor
recorded at open time to its closing delimiter (`nil` on no match, which
never happens for a flavor produced by `Open`). -/
def closeTagOf (flavor : Nat) : List Char :=
  if flavor = flavor_inline ||| delimeter_ams then _inlineclose
  else if flavor = flavor_display ||| delimeter_ams then _displayclose
  else if flavor = flavor_inline ||| delimeter_tex then _dollarInline
  else if flavor = flavor_display ||| delimeter_tex then _dollarDisplay
  else []

/-- `texBlockRegionParser.Continue`.  Returns the updated node, the reader,
and `true` when the close delimiter was found on this line (Go returns
`parser.Close`; otherwise `parser.Continue`). -/
def texBlockContinue (flavor : Nat) (node : MathBlockNode) (r : Reader) :
    MathBlockNode × Reader × Bool :=
  match r.peekLine with
  | none => (node, r, false)
  | some line =>
    let ct := closeTagOf flavor
    match indexOf ct line with
    | some stop =>
      ({ node with segs := node.segs ++ [line.take stop] },
       r.advance (stop + ct.length), true)
    | none =>
      ({ node with segs := node.segs ++ [line] }, r, false)

/-- `texBlockRegionParser.Close`: materialize the accumulated segments,
concatenated in order with no added separators, into the unit's TeX
source. -/
def texBlockClose (node : MathBlockNode) : List Char :=
  node.segs.foldl (fun acc s => acc ++ s) []

/-- Host-driver loop for the block construct (models goldmark's block
processing): after `Open`, the framework advances to the next line and
calls `Continue` until it reports close (or the document ends, which
closes the open block).  Fuel keeps the recursion structural; it is
instantiated with more lines than the document has. -/
def runBlockLoop (flavor : Nat) : Nat → MathBlockNode → Reader → Option (Nat × List Char)
  | 0, _, _ => none
  | fuel + 1, node, r =>
    let r1 := r.advanceLine
    match r1.peekLine with
    | none => some (flavor, texBlockClose node)
    | some _ =>
      match texBlockContinue flavor node r1 with
      | (node', _, true) => some (flavor, texBlockClose node')
      | (node', r2, false) => runBlockLoop flavor fuel node' r2

/-- Host-driver entry point: try to open a block math region at the first
line of `doc` and, if opened, run the accumulate/close state machine.
Returns the flavor and materialized TeX source of the unit, or `none`
when no block region is produced. -/
def runBlock (doc : List Line) : Option (Nat × List Char) :=
  match texBlockOpen ⟨doc, 0, 0⟩ with
  | (none, _) => none
  | (some node, r1) => runBlockLoop node.flavor (doc.length + 1) node r1

/-- The external conversion collaborator (the treeblood engine), abstract:
each style conversion returns a markup string and possibly an error
(`some ()` models a non-nil Go `error`). -/
structure Engine where
  textStyle : List Char → List Char × Option Unit
  displayStyle : List Char → List Char × Option Unit

/-- The AST node kinds `MathRenderer.renderMath` can receive. -/
inductive NodeK where
  | inlineN (flavor : Nat) (tex : List Char)
  | blockN (flavor : Nat) (tex : List Char)
  | other
deriving DecidableEq

/-- `MathRenderer.renderMath`.  Returns the bytes written to the output
and the error returned to the walker (always `none`: the Go code returns
`nil` and discards the engine's error with `_`).  On entering a math
node it writes the first component of the engine call — text style when
the inline flavor bit is set, display style otherwise. -/
def renderMath (eng : Engine) (node : NodeK) (entering : Bool) :
    List Char × Option Unit :=
  match node with
  | .other => ([], none)
  | .inlineN flavor tex =>
    if entering then
      ((if flavor &&& flavor_inline > 0 then eng.textStyle tex
        else eng.displayStyle tex).1, none)
    else ([], none)
  | .blockN flavor tex =>
    if entering then
      ((if flavor &&& flavor_inline > 0 then eng.textStyle tex
        else eng.displayStyle tex).1, none)
    else ([], none)

/-- Flavor of the unit produced by the inline scanner, when one is. -/
def inlineFlavorOpt (r : Reader) : Option Nat :=
  Option.map MathInlineNode.flavor (texInlineParse r).1

/-- Flavor of the node produced by the block scanner's `Open`, when one is. -/
def blockFlavorOpt (r : Reader) : Option Nat :=
  Option.map MathBlockNode.flavor (texBlockOpen r).1

/-- Modelled from the spec: the confirmation walk over the future lines of
the document, as the specification words it — stop confirming when a line
containing the closer exactly once is found; stop unconfirmed when the
document ends or when a scanned line fails the closer-count check.  Since
every scanned line either passes or fails the count check, the walk always
stops at the first future line. -/
def specConfirmWalk (ed : List Char) : List Line → Bool
  | [] => false
  | l :: _ => countS ed l == 1

/-! Helper lemmas. -/

/-- Saving the position, advancing a line, and restoring yields the
original reader. -/
theorem Reader.setPosition_advanceLine (r : Reader) :
    (r.advanceLine).setPosition r.position = r := rfl

/-- The confirmation probe restores the saved position unconditionally:
the reader after the probe is the reader before it. -/
theorem probeBlock_snd (ed : List Char) (r : Reader) :
    (probeBlock ed r).2 = r := rfl

theorem head?_drop_get (l : List Line) (n : Nat) :
    (l.drop n).head? = l[n]? := by
  induction n generalizing l with
  | zero => cases l <;> simp
  | succ n ih => cases l with
    | nil => rfl
    | cons a t => simp only [List.drop_succ_cons, ih t, List.getElem?_cons_succ]

/-- The code's probe computes exactly the spec-worded confirmation walk
over the lines after the current one. -/
theorem probeBlock_fst_eq_walk (ed : List Char) (r : Reader) :
    (probeBlock ed r).1 = specConfirmWalk ed (r.lines.drop (r.li + 1)) := by
  have hd := head?_drop_get r.lines (r.li + 1)
  cases hdd : r.lines.drop (r.li + 1) with
  | nil =>
    rw [hdd] at hd
    simp only [List.head?] at hd
    simp [probeBlock, Reader.advanceLine, Reader.peekLine, Reader.position,
      Reader.setPosition, ← hd, specConfirmWalk, hdd]
  | cons a t =>
    rw [hdd] at hd
    simp only [List.head?] at hd
    simp [probeBlock, Reader.advanceLine, Reader.peekLine, Reader.position,
      Reader.setPosition, ← hd, specConfirmWalk, hdd]

theorem indexOf_append_isSome (p a b : List Char) :
    (indexOf p (a ++ (p ++ b))).isSome = true := by
  induction a with
  | nil =>
    have hp : List.isPrefixOf p (p ++ b) = true :=
      List.isPrefixOf_iff_prefix.mpr (List.prefix_append p b)
    cases hpb : p ++ b with
    | nil => simp [indexOf, hpb ▸ hp]
    | cons c t => simp [indexOf, hpb ▸ hp]
  | cons c a ih =>
    simp only [List.cons_append, indexOf]
    split
    · rfl
    · simpa using ih

theorem indexOf_single_not_mem (c : Char) (m rest : List Char) (h : c ∉ m) :
    indexOf [c] (m ++ c :: rest) = some m.length := by
  induction m with
  | nil =>
    simp [indexOf, List.isPrefixOf]
  | cons d t ih =>
    have hdc : (c == d) = false := by
      simp only [beq_eq_false_iff_ne, ne_eq]
      intro hcd
      exact h (hcd ▸ List.mem_cons_self d t)
    have ht : c ∉ t := fun hm => h (List.mem_cons_of_mem d hm)
    simp [indexOf, List.isPrefixOf, hdc, ih ht]

/-- Every run of the inline scanner that produces no unit leaves the
reader exactly where it was. -/
theorem texInlineParse_none (r : Reader) (h : (texInlineParse r).1 = none) :
    (texInlineParse r).2 = r := by
  unfold texInlineParse at h ⊢
  cases hpl : r.peekLine with
  | none => simp [hpl]
  | some line =>
    simp only [hpl] at h ⊢
    cases hcl : classifyInline line with
    | none => simp [hcl]
    | some t =>
      obtain ⟨bg, ed, flavor⟩ := t
      simp only [hcl] at h ⊢
      cases hio : indexOf ed (line.drop bg.length) with
      | some stop => simp [hio] at h
      | none =>
        simp only [hio] at h ⊢
        cases hnl : (r.advanceLine).peekLine with
        | none => simp [hnl, Reader.setPosition_advanceLine]
        | some nl =>
          simp only [hnl, Reader.setPosition_advanceLine] at h ⊢
          cases hio2 : indexOf ed nl with
          | none => simp [containsSub, hio2, Reader.setPosition_advanceLine]
          | some stop2 =>
            simp only [containsSub, hio2, Option.isSome_some, if_true,
              Reader.setPosition_advanceLine, hnl] at h
            exact Option.noConfusion h

/-- Every run of the block scanner's `Open` that opens no region leaves
the reader exactly where it was. -/
theorem texBlockOpen_none (r : Reader) (h : (texBlockOpen r).1 = none) :
    (texBlockOpen r).2 = r := by
  unfold texBlockOpen at h ⊢
  cases hpl : r.peekLine with
  | none => simp [hpl]
  | some line =>
    simp only [hpl] at h ⊢
    cases hcl : classifyBlock line with
    | none => simp [hcl]
    | some t =>
      obtain ⟨bg, ed, flavor⟩ := t
      simp only [hcl] at h ⊢
      cases hct : containsSub ed (line.drop bg.length) with
      | true => simp [hct]
      | false =>
        simp only [hct, Bool.false_eq_true, if_false] at h ⊢
        cases hpr : (probeBlock ed r).1 with
        | true => simp [hpr] at h
        | false => simp [hpr, probeBlock_snd]

/-! Claim theorems. -/

/-- C1: a lookahead attempt by either scanner that does not result in a
match leaves the reader's position byte-for-byte identical to before the
attempt — the inline scanner's no-match runs leave the reader unchanged,
the block probe restores the saved position unconditionally (confirmed or
not), and the block scanner's `Open` leaves the reader unchanged whenever
it opens nothing. -/
theorem claim_C1 (ed : List Char) (r : Reader) :
    ((texInlineParse r).1 = none → (texInlineParse r).2 = r) ∧
    (probeBlock ed r).2 = r ∧
    ((texBlockOpen r).1 = none → (texBlockOpen r).2 = r) :=
  ⟨texInlineParse_none r, probeBlock_snd ed r, texBlockOpen_none r⟩

theorem claim_C1_witness :
    (texInlineParse ⟨["$a\n".data, "b\n".data], 0, 0⟩).2 =
      (⟨["$a\n".data, "b\n".data], 0, 0⟩ : Reader) ∧
    (probeBlock _dollarInline ⟨["$a\n".data, "b\n".data], 0, 0⟩).2 =
      (⟨["$a\n".data, "b\n".data], 0, 0⟩ : Reader) ∧
    (texBlockOpen ⟨["$a\n".data, "b\n".data], 0, 0⟩).2 =
      (⟨["$a\n".data, "b\n".data], 0, 0⟩ : Reader) :=
  ⟨(claim_C1 _dollarInline _).1 (by decide),
   (claim_C1 _dollarInline _).2.1,
   (claim_C1 _dollarInline _).2.2 (by decide)⟩

/-- C2: the block scanner's `Open` commits to opening a block region if
and only if the line prefix matches a recognized opener, the matching
closer does not appear later in the same line after the opener, and the
spec's confirmation walk over the future lines (stopping on a line with
the closer exactly once — confirming —, on document end, or on a line
failing the closer-count check) finds a confirming line; in particular a
future line containing the closer twice does not confirm. -/
theorem claim_C2 (r : Reader) :
    ((texBlockOpen r).1.isSome = true ↔
      ∃ line bg ed fl, r.peekLine = some line ∧
        classifyBlock line = some (bg, ed, fl) ∧
        containsSub ed (line.drop bg.length) = false ∧
        specConfirmWalk ed (r.lines.drop (r.li + 1)) = true) ∧
    (∀ (ed : List Char) (nl : Line) (ls : List Line),
      countS ed nl = 2 → specConfirmWalk ed (nl :: ls) = false) := by
  constructor
  · constructor
    · intro h
      unfold texBlockOpen at h
      cases hpl : r.peekLine with
      | none => simp only [hpl] at h; simp at h
      | some line =>
        simp only [hpl] at h
        cases hcl : classifyBlock line with
        | none => simp only [hcl] at h; simp at h
        | some t =>
          obtain ⟨bg, ed, fl⟩ := t
          simp only [hcl] at h
          cases hct : containsSub ed (line.drop bg.length) with
          | true => simp [hct] at h
          | false =>
            cases hpr : (probeBlock ed r).1 with
            | false => simp [hct, hpr] at h
            | true =>
              refine ⟨line, bg, ed, fl, rfl, hcl, hct, ?_⟩
              rw [← probeBlock_fst_eq_walk]; exact hpr
    · rintro ⟨line, bg, ed, fl, hpl, hcl, hct, hw⟩
      have hpr : (probeBlock ed r).1 = true := by
        rw [probeBlock_fst_eq_walk]; exact hw
      unfold texBlockOpen
      simp [hpl, hcl, hct, hpr]
  · intro ed nl ls h
    simp [specConfirmWalk, h]

theorem claim_C2_witness :
    (texBlockOpen ⟨["$$a\n".data, "b$$\n".data], 0, 0⟩).1.isSome = true :=
  (claim_C2 ⟨["$$a\n".data, "b$$\n".data], 0, 0⟩).1.mpr
    ⟨"$$a\n".data, _dollarDisplay, _dollarDisplay,
     flavor_display ||| delimeter_tex, rfl, by decide, by decide, by decide⟩

/-- C3 (counterexample): the scanners do NOT recognize the two-byte
sequences. A region written with two-byte `\(`/`\)` (and `\[`/`\]`)
delimiters is not recognized by either scanner: the Go delimiter
constants are raw string literals, so the openers are the three-byte
sequences backslash-backslash-bracket. -/
theorem claim_C3_counterexample :
    (texInlineParse ⟨["\\(x\\)".data], 0, 0⟩).1 = none ∧
    (texBlockOpen ⟨["\\(x\n".data, "y\\)\n".data], 0, 0⟩).1 = none ∧
    (texBlockOpen ⟨["\\[\n".data, "x + y\\]\n".data], 0, 0⟩).1 = none ∧
    classifyInline "\\(x\\)".data = none ∧
    classifyBlock "\\[\n".data = none := by decide

/-- C3 (amended): the AMS delimiters the scanners recognize are the
three-byte sequences `\\(`/`\\)` (inline|AMS) and `\\[`/`\\]`
(display|AMS): both classifiers map lines with those prefixes to those
flavors, and the inline scanner parses such regions accordingly. -/
theorem claim_C3 (t u : List Char) :
    classifyInline ('\\' :: '\\' :: '(' :: t) =
      some (_inlineopen, _inlineclose, flavor_inline ||| delimeter_ams) ∧
    classifyBlock ('\\' :: '\\' :: '(' :: t) =
      some (_inlineopen, _inlineclose, flavor_inline ||| delimeter_ams) ∧
    classifyInline ('\\' :: '\\' :: '[' :: u) =
      some (_displayopen, _displayclose, flavor_display ||| delimeter_ams) ∧
    classifyBlock ('\\' :: '\\' :: '[' :: u) =
      some (_displayopen, _displayclose, flavor_display ||| delimeter_ams) ∧
    texInlineParse ⟨["\\\\(x\\\\)".data], 0, 0⟩ =
      (some ⟨flavor_inline ||| delimeter_ams, ['x']⟩,
       (⟨["\\\\(x\\\\)".data], 0, 7⟩ : Reader)) ∧
    texInlineParse ⟨["\\\\[y\\\\]".data], 0, 0⟩ =
      (some ⟨flavor_display ||| delimeter_ams, ['y']⟩,
       (⟨["\\\\[y\\\\]".data], 0, 7⟩ : Reader)) := by
  refine ⟨?_, ?_, ?_, ?_, by decide, by decide⟩ <;>
    simp [classifyInline, classifyBlock, _dollarDisplay, _dollarInline,
      _inlineopen, _displayopen, List.isPrefixOf]

/-- C5: whenever the recognized opener's matching closer appears later in
the same line (`indexOf` finds it at `stop`), the inline scanner produces
exactly one unit whose sourceText is exactly the bytes strictly between
opener and closer, and the cursor ends exactly after the closer. -/
theorem claim_C5 (r : Reader) (line bg ed : List Char) (fl stop : Nat)
    (hl : r.peekLine = some line)
    (hcl : classifyInline line = some (bg, ed, fl))
    (hstop : indexOf ed (line.drop bg.length) = some stop) :
    texInlineParse r =
      (some ⟨fl, (line.drop bg.length).take stop⟩,
       r.advance (bg.length + stop + ed.length)) := by
  unfold texInlineParse
  simp [hl, hcl, hstop]

theorem claim_C5_witness :
    texInlineParse ⟨["The value is $x^2$ today.".data], 0, 13⟩ =
      (some ⟨flavor_inline ||| delimeter_tex, "x^2".data⟩,
       (⟨["The value is $x^2$ today.".data], 0, 18⟩ : Reader)) :=
  claim_C5 ⟨["The value is $x^2$ today.".data], 0, 13⟩
    "$x^2$ today.".data _dollarInline _dollarInline
    (flavor_inline ||| delimeter_tex) 3 (by decide) (by decide) (by decide)

/-- C7: an input containing a recognized opener whose closer is not found
within the lookahead bound (the rest of the line plus one peeked line for
the inline scanner; the confirmation probe for the block scanner) makes
both scanners produce zero math units and return the reader untouched,
so default text handling takes over; concretely `\(unterminated` with no
closer anywhere produces zero math units from both scanners. -/
theorem claim_C7 (r s : Reader) (line bg ed : List Char) (fl : Nat)
    (line2 bg2 ed2 : List Char) (fl2 : Nat)
    (hl : r.peekLine = some line)
    (hcl : classifyInline line = some (bg, ed, fl))
    (hno : indexOf ed (line.drop bg.length) = none)
    (hnext : ∀ nl, (r.advanceLine).peekLine = some nl → containsSub ed nl = false)
    (hl2 : s.peekLine = some line2)
    (hcl2 : classifyBlock line2 = some (bg2, ed2, fl2))
    (hno2 : containsSub ed2 (line2.drop bg2.length) = false)
    (hpr : (probeBlock ed2 s).1 = false) :
    texInlineParse r = (none, r) ∧
    texBlockOpen s = (none, s) ∧
    (texInlineParse ⟨["\\(unterminated".data], 0, 0⟩).1 = none ∧
    (texBlockOpen ⟨["\\(unterminated".data], 0, 0⟩).1 = none := by
  refine ⟨?_, ?_, by decide, by decide⟩
  · unfold texInlineParse
    cases hnl : (r.advanceLine).peekLine with
    | none => simp [hl, hcl, hno, hnl, Reader.setPosition_advanceLine]
    | some nl =>
      simp [hl, hcl, hno, hnl, hnext nl hnl, Reader.setPosition_advanceLine]
  · unfold texBlockOpen
    simp [hl2, hcl2, hno2, hpr, probeBlock_snd]

theorem claim_C7_witness :
    texInlineParse ⟨["\\\\(foo\n".data, "bar\n".data], 0, 0⟩ =
      (none, (⟨["\\\\(foo\n".data, "bar\n".data], 0, 0⟩ : Reader)) ∧
    texBlockOpen ⟨["\\\\(foo\n".data, "bar\n".data], 0, 0⟩ =
      (none, (⟨["\\\\(foo\n".data, "bar\n".data], 0, 0⟩ : Reader)) ∧
    (texInlineParse ⟨["\\(unterminated".data], 0, 0⟩).1 = none ∧
    (texBlockOpen ⟨["\\(unterminated".data], 0, 0⟩).1 = none :=
  claim_C7 ⟨["\\\\(foo\n".data, "bar\n".data], 0, 0⟩
    ⟨["\\\\(foo\n".data, "bar\n".data], 0, 0⟩
    "\\\\(foo\n".data _inlineopen _inlineclose (flavor_inline ||| delimeter_ams)
    "\\\\(foo\n".data _inlineopen _inlineclose (flavor_inline ||| delimeter_ams)
    rfl (by decide) (by decide)
    (fun nl h => by
      have h2 : some ("bar\n".data) = some nl := h
      cases h2
      decide)
    rfl (by decide) (by decide) (by decide)

/-- C4: both classifiers try display-dollar `$$` before inline-dollar
`$`, so a line beginning with `$$`, non-`$$` content, and a later `$$`
is classified display-dollar by both scanners, and the inline scanner
produces a display-flavored unit there — never two inline-dollar ones. -/
theorem claim_C4 (mid rest : List Char) (r : Reader)
    (h : r.peekLine = some ('$' :: '$' :: (mid ++ '$' :: '$' :: rest)))
    (_hmid : List.isPrefixOf _dollarDisplay mid = false) :
    classifyInline ('$' :: '$' :: (mid ++ '$' :: '$' :: rest)) =
      some (_dollarDisplay, _dollarDisplay, flavor_display ||| delimeter_tex) ∧
    classifyBlock ('$' :: '$' :: (mid ++ '$' :: '$' :: rest)) =
      some (_dollarDisplay, _dollarDisplay, flavor_display ||| delimeter_tex) ∧
    inlineFlavorOpt r = some (flavor_display ||| delimeter_tex) := by
  have hcl : classifyInline ('$' :: '$' :: (mid ++ '$' :: '$' :: rest)) =
      some (_dollarDisplay, _dollarDisplay, flavor_display ||| delimeter_tex) := by
    simp [classifyInline, _dollarDisplay, List.isPrefixOf]
  have hcb : classifyBlock ('$' :: '$' :: (mid ++ '$' :: '$' :: rest)) =
      some (_dollarDisplay, _dollarDisplay, flavor_display ||| delimeter_tex) := by
    simp [classifyBlock, _displayopen, _dollarDisplay, List.isPrefixOf]
  refine ⟨hcl, hcb, ?_⟩
  have hio : (indexOf _dollarDisplay
      (('$' :: '$' :: (mid ++ '$' :: '$' :: rest)).drop _dollarDisplay.length)).isSome
      = true := by
    have h2 := indexOf_append_isSome _dollarDisplay mid rest
    simpa [_dollarDisplay] using h2
  cases hstop : indexOf _dollarDisplay
      (('$' :: '$' :: (mid ++ '$' :: '$' :: rest)).drop _dollarDisplay.length) with
  | none => rw [hstop] at hio; simp at hio
  | some stop =>
    unfold inlineFlavorOpt texInlineParse
    simp [h, hcl, hstop]

theorem claim_C4_witness :
    inlineFlavorOpt ⟨["$$x$$".data], 0, 0⟩ = some (flavor_display ||| delimeter_tex) :=
  (claim_C4 ['x'] [] ⟨["$$x$$".data], 0, 0⟩ rfl (by decide)).2.2

/-- C6 (counterexample): the three-line input `\[`, `x + y`, `\]` yields
no block math unit at all: the two-byte delimiters are not in the
catalog, and even with the three-byte delimiters `\\[`/`\\]` the
confirmation probe inspects only the line immediately after the opener,
which lacks the closer, so nothing opens. -/
theorem claim_C6_counterexample :
    runBlock ["\\[\n".data, "x + y\n".data, "\\]".data] = none ∧
    (texBlockOpen ⟨["\\[\n".data, "x + y\n".data, "\\]".data], 0, 0⟩).1 = none ∧
    (texBlockOpen ⟨["\\[\n".data, "x + y\n".data, "\\]".data], 1, 0⟩).1 = none ∧
    (texBlockOpen ⟨["\\[\n".data, "x + y\n".data, "\\]".data], 2, 0⟩).1 = none ∧
    runBlock ["\\\\[\n".data, "x + y\n".data, "\\\\]\n".data] = none := by decide

/-- C6 (amended): the two-line input `\\[` then `x + y\\]` yields exactly
one block math unit of flavor display|AMS whose sourceText is line 1's
remainder after the opener (here its newline) followed by line 2's prefix
before the closer, segments joined in order with no added separators. -/
theorem claim_C6 :
    runBlock ["\\\\[\n".data, "x + y\\\\]".data] =
      some (flavor_display ||| delimeter_ams, '\n' :: "x + y".data) := by decide

/-- C8: for every math unit (inline or block node) the renderer calls the
engine's text-style conversion when the flavor has the inline bit set and
the display-style conversion otherwise, writes whatever markup string the
engine returned, and reports no error to the caller whatever error the
engine returned. -/
theorem claim_C8 (eng : Engine) (fl : Nat) (tex : List Char) (entering : Bool) :
    (renderMath eng (NodeK.inlineN fl tex) entering).2 = none ∧
    (renderMath eng (NodeK.blockN fl tex) entering).2 = none ∧
    (renderMath eng NodeK.other entering).2 = none ∧
    (renderMath eng (NodeK.inlineN fl tex) true).1 =
      (if fl &&& flavor_inline > 0 then (eng.textStyle tex).1
       else (eng.displayStyle tex).1) ∧
    (renderMath eng (NodeK.blockN fl tex) true).1 =
      (if fl &&& flavor_inline > 0 then (eng.textStyle tex).1
       else (eng.displayStyle tex).1) := by
  by_cases hfl : fl &&& flavor_inline > 0 <;>
    cases entering <;> simp [renderMath, hfl]

/-- C9 (counterexample): scanning for the inline-dollar close, the code
accepts the first `$` of a `$$` occurrence in the remainder of the line
as the close: on the line `$x$$` it produces an inline-dollar unit with
sourceText `x` and leaves the cursor between the two `$` of the `$$`,
contradicting the claim that a `$$` occurrence is never accepted as the
close of an inline-dollar region. -/
theorem claim_C9_counterexample :
    texInlineParse ⟨["$x$$".data], 0, 0⟩ =
      (some ⟨flavor_inline ||| delimeter_tex, ['x']⟩,
       (⟨["$x$$".data], 0, 3⟩ : Reader)) := by decide

/-- C9 (amended): once the opener is classified inline-dollar, the close
search looks for the exact closer string of the chosen flavor only (the
single byte `$`) and returns its first occurrence in the remainder of
the line — including when that `$` is the first byte of a display `$$`
pattern; it never requires or matches the two-byte `$$` as the closer. -/
theorem claim_C9 (r : Reader) (m rest : List Char)
    (hl : r.peekLine = some ('$' :: (m ++ '$' :: rest)))
    (hm : '$' ∉ m) (hm0 : m ≠ []) :
    texInlineParse r =
      (some ⟨flavor_inline ||| delimeter_tex, m⟩,
       r.advance (1 + m.length + 1)) := by
  obtain ⟨c, m', rfl⟩ : ∃ c m', m = c :: m' := by
    cases m with
    | nil => exact absurd rfl hm0
    | cons c m' => exact ⟨c, m', rfl⟩
  have hc : ('$' == c) = false := by
    simp only [beq_eq_false_iff_ne, ne_eq]
    intro hcd
    exact hm (hcd ▸ List.mem_cons_self c m')
  have hcl : classifyInline ('$' :: ((c :: m') ++ '$' :: rest)) =
      some (_dollarInline, _dollarInline, flavor_inline ||| delimeter_tex) := by
    simp [classifyInline, _dollarDisplay, _dollarInline, List.isPrefixOf, hc]
  have hio : indexOf _dollarInline
      (('$' :: ((c :: m') ++ '$' :: rest)).drop _dollarInline.length) =
      some (c :: m').length := by
    simpa [_dollarInline] using indexOf_single_not_mem '$' (c :: m') rest hm
  unfold texInlineParse
  simp only [hl, hcl, hio]
  have htake : (('$' :: ((c :: m') ++ '$' :: rest)).drop _dollarInline.length).take
      (c :: m').length = c :: m' := by
    simp [_dollarInline, List.take_left]
  rw [htake]
  simp [_dollarInline, Nat.add_comm]

theorem claim_C9_witness :
    texInlineParse ⟨["$y$$".data], 0, 0⟩ =
      (some ⟨flavor_inline ||| delimeter_tex, ['y']⟩,
       (⟨["$y$$".data], 0, 3⟩ : Reader)) :=
  claim_C9 ⟨["$y$$".data], 0, 0⟩ ['y'] ['$'] rfl (by decide) (by decide)

/-- C10: the block scanner's `Open` accepts inline-flavor delimiters as
block openers: a line starting with the AMS inline opener or a single
`$`, with no same-line close and the probe confirming on the next line,
opens a block node whose flavor has the inline bit set, and block nodes
with such flavors are rendered with the engine's text-style conversion. -/
theorem claim_C10 (r s : Reader) (t u nl nl2 tex : List Char) (eng : Engine)
    (hr : r.peekLine = some ('\\' :: '\\' :: '(' :: t))
    (hrt : containsSub _inlineclose t = false)
    (hrn : (r.advanceLine).peekLine = some nl)
    (hrc : countS _inlineclose nl = 1)
    (hs : s.peekLine = some ('$' :: u))
    (hsd : List.isPrefixOf _dollarInline u = false)
    (hst : containsSub _dollarInline u = false)
    (hsn : (s.advanceLine).peekLine = some nl2)
    (hsc : countS _dollarInline nl2 = 1) :
    blockFlavorOpt r = some (flavor_inline ||| delimeter_ams) ∧
    blockFlavorOpt s = some (flavor_inline ||| delimeter_tex) ∧
    renderMath eng (NodeK.blockN (flavor_inline ||| delimeter_ams) tex) true =
      ((eng.textStyle tex).1, none) ∧
    renderMath eng (NodeK.blockN (flavor_inline ||| delimeter_tex) tex) true =
      ((eng.textStyle tex).1, none) := by
  have hclr : classifyBlock ('\\' :: '\\' :: '(' :: t) =
      some (_inlineopen, _inlineclose, flavor_inline ||| delimeter_ams) := by
    simp [classifyBlock, _displayopen, _dollarDisplay, _inlineopen,
      List.isPrefixOf]
  have hsd' : List.isPrefixOf ['$'] u = false := hsd
  have hcls : classifyBlock ('$' :: u) =
      some (_dollarInline, _dollarInline, flavor_inline ||| delimeter_tex) := by
    simp [classifyBlock, _displayopen, _dollarDisplay, _inlineopen,
      _dollarInline, List.isPrefixOf, hsd']
  have hprr : (probeBlock _inlineclose r).1 = true := by
    simp [probeBlock, hrn, hrc]
  have hprs : (probeBlock _dollarInline s).1 = true := by
    simp [probeBlock, hsn, hsc]
  refine ⟨?_, ?_, rfl, rfl⟩
  · have hrt' : containsSub _inlineclose
        (('\\' :: '\\' :: '(' :: t).drop _inlineopen.length) = false := hrt
    unfold blockFlavorOpt texBlockOpen
    simp [hr, hclr, hrt', hprr]
  · have hst' : containsSub _dollarInline
        (('$' :: u).drop _dollarInline.length) = false := hst
    unfold blockFlavorOpt texBlockOpen
    simp [hs, hcls, hst', hprs]

/-- Concrete engine used by the C10 witness: the text-style call returns
markup headed by `T` together with a (swallowed) error, the display-style
call markup headed by `D`. -/
def engW : Engine :=
  ⟨fun l => ('T' :: l, some ()), fun l => ('D' :: l, none)⟩

theorem claim_C10_witness :
    blockFlavorOpt ⟨["\\\\(a\n".data, "b\\\\)\n".data], 0, 0⟩ =
      some (flavor_inline ||| delimeter_ams) ∧
    blockFlavorOpt ⟨["$a\n".data, "b$\n".data], 0, 0⟩ =
      some (flavor_inline ||| delimeter_tex) ∧
    renderMath engW (NodeK.blockN (flavor_inline ||| delimeter_ams) ['x']) true =
      (('T' :: ['x']), none) ∧
    renderMath engW (NodeK.blockN (flavor_inline ||| delimeter_tex) ['x']) true =
      (('T' :: ['x']), none) :=
  claim_C10 ⟨["\\\\(a\n".data, "b\\\\)\n".data], 0, 0⟩
    ⟨["$a\n".data, "b$\n".data], 0, 0⟩
    "a\n".data "a\n".data "b\\\\)\n".data "b$\n".data ['x'] engW
    rfl (by decide) rfl (by decide) rfl (by decide) (by decide) rfl (by decide)

end TB
